import Mathlib

/-!
Verification development for the Bloomberg credit-rating REST gateway
(`backend/bloomberg-python-service/bloomberg_api.py`).

The Python module is shallowly embedded: Python dictionaries become
association lists with Python's insert-or-overwrite semantics, Python
scalar values that flow through the data path become `PyVal`
(`None` or a string; dates are converted to ISO strings by the fetcher
before they reach any consumer, exactly as in the source), and the
blocking vendor-event loops become recursion over explicit event lists,
where running out of events without a final-response marker models the
loop hanging (`Option` result, `none` = no termination).
-/

namespace CreditAlert

/-- A Python scalar value as it appears in the data path of the service:
either `None` or a string.  (Date values are stringified via `isoformat()`
inside `fetch_reference_data` before being stored, so consumers only ever
see strings or `None`; we model the vendor-side raw value separately as
`FieldVal`.) -/
inductive PyVal where
  | vNone : PyVal
  | vStr : String → PyVal
deriving DecidableEq, Repr

/-- Python truthiness for the values of `PyVal`: `None` and `""` are falsy. -/
def pyTruthy : PyVal → Bool
  | .vNone => false
  | .vStr s => s ≠ ""

/-- Python `str()` applied to a `PyVal`. -/
def pyStr : PyVal → String
  | .vNone => "None"
  | .vStr s => s

/-- Python `str.upper()` restricted to ASCII, which is all the source ever
compares against (`"POSITIVE"`, `"NEG"`, ...). -/
def pyUpper (s : String) : String :=
  String.mk (s.data.map Char.toUpper)

/-- Python `str.strip()` (whitespace at both ends). -/
def pyStrip (s : String) : String :=
  String.mk (((s.data.dropWhile Char.isWhitespace).reverse.dropWhile Char.isWhitespace).reverse)

/-- Is `pat` a contiguous sublist of `l`?  Executable helper for Python's
substring test `pat in s`. -/
def listHasSub (pat : List Char) : List Char → Bool
  | [] => pat.isEmpty
  | c :: cs => pat.isPrefixOf (c :: cs) || listHasSub pat cs

/-- Python's substring containment `pat in s`. -/
def strContains (s pat : String) : Bool :=
  listHasSub pat.data s.data

/-- Association-list lookup, the read side of a Python `dict`
(no duplicate keys arise from `dinsert`). -/
def alookup {β : Type} : List (String × β) → String → Option β
  | [], _ => none
  | (k', v) :: rest, k => if k' = k then some v else alookup rest k

/-- Python `dict` write `d[k] = v`: overwrite in place if the key exists,
else append, preserving insertion order. -/
def dinsert {β : Type} : List (String × β) → String → β → List (String × β)
  | [], k, v => [(k, v)]
  | (k', v') :: rest, k, v =>
      if k' = k then (k, v) :: rest else (k', v') :: dinsert rest k v

/-- A raw field record: Bloomberg field name → scalar value, i.e. one value
of the mapping produced by `fetch_reference_data`. -/
abbrev RawRec : Type := List (String × PyVal)

/-- Python `d.get(k, default)` on a raw record. -/
def pyGet (d : RawRec) (k : String) (dflt : PyVal) : PyVal :=
  (alookup d k).getD dflt

/-- Python `d.get(k)` (default `None`) on a raw record. -/
def pyGetOpt (d : RawRec) (k : String) : PyVal :=
  (alookup d k).getD .vNone

/-- The `outlook_map` dict of `parse_outlook` in `transform_bloomberg_data`. -/
def outlook_map : List (String × String) :=
  [("POSITIVE", "positive"),
   ("NEGATIVE", "negative"),
   ("STABLE", "stable"),
   ("DEVELOPING", "developing"),
   ("POS", "positive"),
   ("NEG", "negative"),
   ("STA", "stable"),
   ("DEV", "developing")]

/-- `parse_outlook` from `transform_bloomberg_data`: falsy input maps to
`"stable"`, otherwise the uppercased string is looked up in `outlook_map`
with default `"stable"`. -/
def parse_outlook (v : PyVal) : String :=
  if !pyTruthy v then "stable"
  else (alookup outlook_map (pyUpper (pyStr v))).getD "stable"

/-- `parse_watchlist` from `transform_bloomberg_data`: falsy or empty input
maps to `"Not on watchlist"`, otherwise substring matching on the
uppercased string. -/
def parse_watchlist (v : PyVal) : String :=
  if !pyTruthy v || v = .vStr "" then "Not on watchlist"
  else
    let u := pyUpper (pyStr v)
    if strContains u "POSITIVE" || strContains u "UPGRADE" then "Positive"
    else if strContains u "NEGATIVE" || strContains u "DOWNGRADE" then "Negative"
    else "Not on watchlist"

/-- The canonical Bond Record: the exact key set of the dict returned by
`transform_bloomberg_data`. -/
structure BondRecord where
  isin : PyVal
  issuer : PyVal
  country : PyVal
  moodys_rating : PyVal
  sp_rating : PyVal
  fitch_rating : PyVal
  moodys_rating_date : PyVal
  sp_rating_date : PyVal
  fitch_rating_date : PyVal
  moodys_outlook : String
  sp_outlook : String
  fitch_outlook : String
  moodys_outlook_date : PyVal
  sp_outlook_date : PyVal
  fitch_outlook_date : PyVal
  moodys_watch : String
  sp_watch : String
  fitch_watch : String
  sector : PyVal
  industry : PyVal
deriving DecidableEq, Repr

/-- `transform_bloomberg_data`: raw Bloomberg field record → canonical
Bond Record. -/
def transform_bloomberg_data (d : RawRec) : BondRecord :=
  { isin := pyGet d "ID_ISIN" (.vStr "")
  , issuer := (alookup d "ISSUER").getD (pyGet d "ISSUER_BULK" (.vStr ""))
  , country := pyGet d "COUNTRY_ISO" (.vStr "")
  , moodys_rating := pyGet d "RTG_MOODY" (.vStr "")
  , sp_rating := pyGet d "RTG_SP" (.vStr "")
  , fitch_rating := pyGet d "RTG_FITCH" (.vStr "")
  , moodys_rating_date := pyGet d "RTG_MOODY_RATING_DATE" (.vStr "")
  , sp_rating_date := pyGet d "RTG_SP_RATING_DATE" (.vStr "")
  , fitch_rating_date := pyGet d "RTG_FITCH_RATING_DATE" (.vStr "")
  , moodys_outlook := parse_outlook (pyGetOpt d "RTG_MOODY_OUTLOOK")
  , sp_outlook := parse_outlook (pyGetOpt d "RTG_SP_OUTLOOK")
  , fitch_outlook := parse_outlook (pyGetOpt d "RTG_FITCH_OUTLOOK")
  , moodys_outlook_date := pyGet d "RTG_MOODY_OUTLOOK_DT" (.vStr "")
  , sp_outlook_date := pyGet d "RTG_SP_OUTLOOK_DT" (.vStr "")
  , fitch_outlook_date := pyGet d "RTG_FITCH_OUTLOOK_DT" (.vStr "")
  , moodys_watch := parse_watchlist (pyGetOpt d "RTG_MOODY_REVIEW")
  , sp_watch := parse_watchlist (pyGetOpt d "RTG_SP_CREDITWATCH")
  , fitch_watch := parse_watchlist (pyGetOpt d "RTG_FITCH_WATCH")
  , sector := pyGet d "GICS_SECTOR_NAME" (.vStr "")
  , industry := pyGet d "GICS_INDUSTRY_NAME" (.vStr "") }

/-! ## Index Screener (`screen_usd_bonds`)

The vendor SDK's event stream is modelled explicitly.  An index-membership
request yields a list of events; each event carries a type and messages;
a message may carry a `responseError` (we keep its `subcategory` string,
the only part the code branches on) and/or a `securityData` array, whose
entries may carry a `securityError` and a `fieldData` element mapping a
bulk field name to member entries (each an assoc list of sub-field name →
identifier string). -/

/-- `blpapi` event type, as far as the loops distinguish it: the final
`RESPONSE` marker, a `PARTIAL_RESPONSE`, or anything else (e.g. a
`TIMEOUT` produced by `nextEvent(2000)` expiring). -/
inductive EventType where
  | response : EventType
  | partialResponse : EventType
  | other : EventType
deriving DecidableEq, Repr

/-- One entry of a `securityData` array in a screening response. -/
structure ScreenSecData where
  securityError : Bool
  fieldData : Option (List (String × List (List (String × String))))
deriving DecidableEq, Repr

/-- One message of a screening response event. -/
structure ScreenMsg where
  responseError : Option String
  securityData : Option (List ScreenSecData)
deriving DecidableEq, Repr

/-- One screening response event. -/
structure ScreenEvent where
  type : EventType
  msgs : List ScreenMsg
deriving DecidableEq, Repr

/-- The ordered index list tried by `screen_usd_bonds`. -/
def indices : List String :=
  ["LEGATRUU Index", "LUACTRUU Index", "LF98TRUU Index", "LBUSTRUU Index"]

/-- The bulk member fields requested per index. -/
def screen_fields : List String :=
  ["INDX_MEMBERS", "INDX_MWEIGHT", "INDX_MEMBERS_WEIGHTS", "MEMBERS_AND_WEIGHTS"]

/-- The identifier sub-fields probed inside each member entry. -/
def sub_fields : List String :=
  ["Member Ticker and Exchange Code", "Member Ticker", "ISIN", "ID_ISIN",
   "Ticker", "Security Identifier"]

/-- The innermost sub-field probe of `screen_usd_bonds`: scan `subs` in
order; at the first sub-field present whose value is truthy and not yet in
`isins`, append it and stop; otherwise keep probing. -/
def addMember (subs : List String) (entry : List (String × String)) (isins : List String) : List String :=
  match subs with
  | [] => isins
  | sub :: rest =>
    match alookup entry sub with
    | some val =>
        if val ≠ "" && !isins.contains val then isins ++ [val]
        else addMember rest entry isins
    | none => addMember rest entry isins

/-- Processing of one `securityData` entry in `screen_usd_bonds`: skip on
`securityError` or missing `fieldData`; otherwise, for each requested bulk
field present, run the member entries through `addMember`. -/
def processSecData (isins : List String) (sd : ScreenSecData) : List String :=
  if sd.securityError then isins
  else match sd.fieldData with
  | none => isins
  | some fd =>
      screen_fields.foldl (fun is field =>
        match alookup fd field with
        | none => is
        | some members => members.foldl (fun is2 entry => addMember sub_fields entry is2) is) isins

/-- Either the quota error subcategory was hit mid-message-loop (the code
does `return "LIMIT_REACHED"`), or processing continued with updated
state. -/
inductive StepRes where
  | limitHit : StepRes
  | cont : List String → StepRes
deriving DecidableEq, Repr

/-- Processing of one message in `screen_usd_bonds`: a `responseError`
whose subcategory contains `DAILY_CAPACITY_REACHED` aborts with the quota
sentinel; any other `responseError` skips the message; otherwise the
`securityData` entries (if any) are processed. -/
def processMsg (isins : List String) (m : ScreenMsg) : StepRes :=
  match m.responseError with
  | some sub =>
      if strContains sub "DAILY_CAPACITY_REACHED" then .limitHit
      else .cont isins
  | none =>
      match m.securityData with
      | none => .cont isins
      | some entries => .cont (entries.foldl processSecData isins)

/-- All messages of one event, with early exit on the quota error. -/
def processMsgs : List ScreenMsg → List String → StepRes
  | [], isins => .cont isins
  | m :: ms, isins =>
    match processMsg isins m with
    | .limitHit => .limitHit
    | .cont is2 => processMsgs ms is2

/-- Outcome of draining one index's event stream. -/
inductive IndexOutcome where
  | limitReached : IndexOutcome
  | finished : List String → IndexOutcome
deriving DecidableEq, Repr

/-- The `while True: event = session.nextEvent(2000) ...` loop of
`screen_usd_bonds` for one index: `RESPONSE` and `PARTIAL_RESPONSE` events
are processed, any other event (including a poll timeout) is skipped, and
the loop exits on consuming a `RESPONSE` event or on the quota error.
`none` models the loop never terminating (stream exhausted with no final
marker — `nextEvent` would keep yielding timeouts forever). -/
def drainIndex : List ScreenEvent → List String → Option IndexOutcome
  | [], _ => none
  | e :: es, isins =>
    if e.type = .response ∨ e.type = .partialResponse then
      match processMsgs e.msgs isins with
      | .limitHit => some .limitReached
      | .cont is2 =>
          if e.type = .response then some (.finished is2) else drainIndex es is2
    else drainIndex es isins

/-- Result of `screen_usd_bonds`: the `"LIMIT_REACHED"` sentinel string, or
a list of identifiers.  (In Python the sentinel is a string, which is a
distinct value from every list.) -/
inductive ScreenResult where
  | limitReached : ScreenResult
  | ids : List String → ScreenResult
deriving DecidableEq, Repr

/-- The `for index_name in indices:` loop of `screen_usd_bonds` plus the
final return.  The 3000 check sits at the top of each index iteration;
after the loop, an empty accumulation returns `[]` and otherwise the list
truncated to 3000 is returned.  `oracle` gives each index's event stream. -/
def screenGo (oracle : String → List ScreenEvent) : List String → List String → Option ScreenResult
  | [], isins => some (.ids (if isins.length = 0 then [] else isins.take 3000))
  | idx :: rest, isins =>
    if isins.length ≥ 3000 then
      some (.ids (if isins.length = 0 then [] else isins.take 3000))
    else
      match drainIndex (oracle idx) isins with
      | none => none
      | some .limitReached => some .limitReached
      | some (.finished is2) => screenGo oracle rest is2

/-- `screen_usd_bonds`: with no session it returns `[]`; otherwise it
iterates the four indices. -/
def screen_usd_bonds (connected : Bool) (oracle : String → List ScreenEvent) : Option ScreenResult :=
  if connected then screenGo oracle indices [] else some (.ids [])

/-! ## Batched Fetcher (`fetch_reference_data`)

The reference-data response stream is modelled per batch: `oracle i` is
the event stream the vendor produces for the `i`-th batch request.  To
make the side effect `session.sendRequest(request)` observable, the model
also returns the list of issued requests (each request being the list of
security strings appended to its `securities` element). -/

/-- A raw vendor field value before conversion: a string, or a
date/datetime (carrying its `isoformat()` text). -/
inductive FieldVal where
  | fvStr : String → FieldVal
  | fvDate : String → FieldVal
deriving DecidableEq, Repr

/-- The `isinstance(value, datetime/date) → value.isoformat()` conversion
in `fetch_reference_data`. -/
def pyOfField : FieldVal → PyVal
  | .fvStr s => .vStr s
  | .fvDate d => .vStr d

/-- One entry of the `securityData` array in a reference-data response. -/
structure FetchSecData where
  security : String
  securityError : Bool
  fieldData : List (String × FieldVal)
deriving DecidableEq, Repr

/-- One message of a reference-data response event. -/
structure FetchMsg where
  securityData : Option (List FetchSecData)
deriving DecidableEq, Repr

/-- One reference-data response event. -/
structure FetchEvent where
  type : EventType
  msgs : List FetchMsg
deriving DecidableEq, Repr

/-- The mapping assembled by `fetch_reference_data`:
security identifier → raw field record. -/
abbrev ResultsMap : Type := List (String × RawRec)

/-- The requested value of one field for one security: the field's value
converted to `PyVal` if present in `fieldData`, else an explicit `None`. -/
def fieldValue (fd : List (String × FieldVal)) (f : String) : PyVal :=
  match alookup fd f with
  | some v => pyOfField v
  | none => .vNone

/-- The `secData` dict built per security: every requested field is
written, absent fields as `None`. -/
def buildSecData (fields : List String) (fd : List (String × FieldVal)) : RawRec :=
  fields.foldl (fun d f => dinsert d f (fieldValue fd f)) []

/-- Processing of one message in `fetch_reference_data`: each
`securityData` entry without a `securityError` stores its `secData` record
under the echoed security identifier. -/
def processFetchMsg (fields : List String) (acc : ResultsMap) (m : FetchMsg) : ResultsMap :=
  match m.securityData with
  | none => acc
  | some entries =>
      entries.foldl (fun a e =>
        if e.securityError then a
        else dinsert a e.security (buildSecData fields e.fieldData)) acc

/-- All messages of one reference-data event. -/
def processFetchEvent (fields : List String) (acc : ResultsMap) (e : FetchEvent) : ResultsMap :=
  e.msgs.foldl (processFetchMsg fields) acc

/-- The `while True: event = session.nextEvent(2000) ...` loop of
`fetch_reference_data` for one batch: `RESPONSE` and `PARTIAL_RESPONSE`
events are processed, other events are skipped, and the loop exits exactly
on consuming a `RESPONSE` event.  `none` models the loop never
terminating. -/
def fetchDrain (fields : List String) : List FetchEvent → ResultsMap → Option ResultsMap
  | [], _ => none
  | e :: es, acc =>
    if e.type = .response ∨ e.type = .partialResponse then
      let acc2 := processFetchEvent fields acc e
      if e.type = .response then some acc2 else fetchDrain fields es acc2
    else fetchDrain fields es acc

/-- Slicing worker for `batches`, structurally recursive on a fuel that
bounds the iteration count (each batch consumes at least one element, so
`l.length` iterations always suffice). -/
def batchesGo : Nat → List String → List (List String)
  | 0, _ => []
  | _, [] => []
  | fuel + 1, s :: ss => ((s :: ss).take 100) :: batchesGo fuel ((s :: ss).drop 100)

/-- The `for i in range(0, len(securities), batch_size)` slicing with
`batch_size = 100`: consecutive slices `securities[i:i+100]`. -/
def batches (l : List String) : List (List String) :=
  batchesGo l.length l

/-- The securities actually appended to one batch request:
`if security and security.strip(): append(security.strip())`. -/
def mkRequest (batch : List String) : List String :=
  batch.filterMap (fun s => if pyStrip s = "" then none else some (pyStrip s))

/-- The per-batch loop body of `fetch_reference_data`: issue the request
for each batch in turn, drain its event stream, accumulate results.  `i`
counts batches so `oracle i` is the `i`-th response stream; `reqs`
accumulates the issued requests. -/
def fetchGo (fields : List String) (oracle : Nat → List FetchEvent) :
    List (List String) → Nat → List (List String) → ResultsMap →
    Option (List (List String) × ResultsMap)
  | [], _, reqs, acc => some (reqs, acc)
  | b :: bs, i, reqs, acc =>
    match fetchDrain fields (oracle i) acc with
    | none => none
    | some acc2 => fetchGo fields oracle bs (i + 1) (reqs ++ [mkRequest b]) acc2

/-- `fetch_reference_data`: empty input returns the empty mapping without
issuing any request; otherwise the input is processed in batches of 100. -/
def fetch_reference_data (fields : List String) (oracle : Nat → List FetchEvent)
    (securities : List String) : Option (List (List String) × ResultsMap) :=
  if securities = [] then some ([], [])
  else fetchGo fields oracle (batches securities) 0 [] []

/-! ## HTTP layer (`GET /api/bonds`, `get_bonds`)

The JSON payload is modelled by `HttpResp` (the `timestamp` of the success
payload is omitted).  The handler's environment is its connection state
plus the two vendor oracles. -/

/-- An HTTP response of the `/api/bonds` handler: status code and the JSON
payload's `error` / `bonds` / `count` / `mode` entries. -/
structure HttpResp where
  status : Nat
  error : Option String
  bonds : List BondRecord
  count : Nat
  mode : String
deriving DecidableEq, Repr

/-- 503 payload when the Bloomberg session is absent. -/
def notConnectedResp : HttpResp :=
  ⟨503, some "Bloomberg Terminal not connected. Please ensure Bloomberg is running and logged in.", [], 0, "error"⟩

/-- 429 payload for the daily-quota sentinel. -/
def limitResp : HttpResp :=
  ⟨429, some "Bloomberg Daily Data Limit Reached (Error -4001). Please wait for limit reset or check Terminal settings.", [], 0, "error"⟩

/-- 503 payload when screening found no identifiers. -/
def noScreenResp : HttpResp :=
  ⟨503, some "Failed to screen bonds from Bloomberg. Check terminal permissions.", [], 0, "error"⟩

/-- 503 payload when the batched fetch returned no data. -/
def noDataResp : HttpResp :=
  ⟨503, some "Bloomberg returned no data. Securities may be invalid or permissions missing.", [], 0, "error"⟩

/-- 503 payload when every transformed record had an empty issuer. -/
def dataQualityResp : HttpResp :=
  ⟨503, some "Bloomberg returned data but all issuer fields are empty. Check security identifiers.", [], 0, "error"⟩

/-- The Bloomberg fields requested by `get_bonds`. -/
def bondFields : List String :=
  ["ID_ISIN", "ISSUER", "ISSUER_BULK", "COUNTRY_ISO",
   "RTG_MOODY", "RTG_SP", "RTG_FITCH",
   "RTG_MOODY_RATING_DATE", "RTG_SP_RATING_DATE", "RTG_FITCH_RATING_DATE",
   "RTG_MOODY_OUTLOOK", "RTG_SP_OUTLOOK", "RTG_FITCH_OUTLOOK",
   "RTG_MOODY_OUTLOOK_DT", "RTG_SP_OUTLOOK_DT", "RTG_FITCH_OUTLOOK_DT",
   "RTG_MOODY_REVIEW", "RTG_SP_CREDITWATCH", "RTG_FITCH_WATCH",
   "GICS_SECTOR_NAME", "GICS_INDUSTRY_NAME"]

/-- The `GET /api/bonds` handler (`get_bonds`): strict mode, no demo
fallback.  `none` models a hanging vendor drain (the HTTP request never
completes). -/
def get_bonds (connected : Bool) (limit : Nat)
    (screenOracle : String → List ScreenEvent) (fetchOracle : Nat → List FetchEvent) :
    Option HttpResp :=
  if !connected then some notConnectedResp
  else
    match screen_usd_bonds connected screenOracle with
    | none => none
    | some .limitReached => some limitResp
    | some (.ids isins) =>
      if isins = [] then some noScreenResp
      else
        match fetch_reference_data bondFields fetchOracle (isins.take limit) with
        | none => none
        | some (_, data) =>
          if data = [] then some noDataResp
          else
            let bonds := data.map (fun p => transform_bloomberg_data p.2)
            let valid := bonds.filter (fun b => pyTruthy b.issuer)
            if valid = [] then some dataQualityResp
            else some ⟨200, none, valid, valid.length, "live"⟩

/-! ## Association-list helper lemmas -/

theorem alookup_mem {β : Type} :
    ∀ (d : List (String × β)) (k : String) (v : β), alookup d k = some v → (k, v) ∈ d := by
  intro d
  induction d with
  | nil => intro k v h; simp [alookup] at h
  | cons p rest ih =>
    intro k v h
    obtain ⟨k', v'⟩ := p
    by_cases hk : k' = k
    · subst hk
      simp [alookup] at h
      simp [h]
    · simp [alookup, hk] at h
      exact List.mem_cons_of_mem _ (ih _ _ h)

theorem alookup_eq_none {β : Type} :
    ∀ (d : List (String × β)) (k : String), (∀ p ∈ d, k ≠ p.1) → alookup d k = none := by
  intro d
  induction d with
  | nil => intro k _; rfl
  | cons p rest ih =>
    intro k h
    obtain ⟨k', v'⟩ := p
    have hne : k' ≠ k := fun he => h (k', v') (List.mem_cons_self _ _) he.symm
    simp [alookup, hne]
    exact ih k (fun q hq => h q (List.mem_cons_of_mem _ hq))

theorem alookup_dinsert_self {β : Type} :
    ∀ (d : List (String × β)) (k : String) (v : β), alookup (dinsert d k v) k = some v := by
  intro d
  induction d with
  | nil => intro k v; simp [dinsert, alookup]
  | cons p rest ih =>
    intro k v
    obtain ⟨k', v'⟩ := p
    by_cases hk : k' = k <;> simp [dinsert, alookup, hk, ih]

theorem alookup_dinsert_ne {β : Type} :
    ∀ (d : List (String × β)) (k k' : String) (v : β), k ≠ k' →
      alookup (dinsert d k v) k' = alookup d k' := by
  intro d
  induction d with
  | nil => intro k k' v hne; simp [dinsert, alookup, hne]
  | cons p rest ih =>
    intro k k' v hne
    obtain ⟨k0, v0⟩ := p
    by_cases h0 : k0 = k
    · subst h0; simp [dinsert, alookup, hne]
    · simp [dinsert, alookup, h0]
      by_cases h1 : k0 = k' <;> simp [h1, ih _ _ _ hne]

theorem alookup_dinsert_isSome {β : Type}
    (d : List (String × β)) (k k' : String) (v : β)
    (h : (alookup d k').isSome) : (alookup (dinsert d k v) k').isSome := by
  by_cases hk : k = k'
  · subst hk; simp [alookup_dinsert_self]
  · rw [alookup_dinsert_ne d k k' v hk]; exact h

theorem mem_dinsert {β : Type} :
    ∀ (d : List (String × β)) (k : String) (v : β) (p : String × β),
      p ∈ dinsert d k v → p ∈ d ∨ p = (k, v) := by
  intro d
  induction d with
  | nil => intro k v p h; simp [dinsert] at h; simp [h]
  | cons q rest ih =>
    intro k v p h
    obtain ⟨k', v'⟩ := q
    by_cases hk : k' = k
    · subst hk
      simp [dinsert] at h
      rcases h with h | h
      · right; simp [h]
      · left; exact List.mem_cons_of_mem _ h
    · simp [dinsert, hk] at h
      rcases h with h | h
      · left; simp [h]
      · rcases ih _ _ _ h with h2 | h2
        · left; exact List.mem_cons_of_mem _ h2
        · right; exact h2

/-- Fold-preservation helper: a property preserved by each step is
preserved by `List.foldl`. -/
theorem foldl_preserve {α β : Type} (P : α → Prop) {f : α → β → α}
    (hstep : ∀ a b, P a → P (f a b)) :
    ∀ (l : List β) (a : α), P a → P (l.foldl f a) := by
  intro l
  induction l with
  | nil => intro a ha; exact ha
  | cons b bs ih => intro a ha; exact ih _ (hstep a b ha)

/-! ## Claim C1 and C5: totality and defaults of the Field Transformer -/

/-- Claim C1: for every raw field record, the Bond Record returned by
`transform_bloomberg_data` contains every canonical attribute (this is the
type of `BondRecord`), and every canonical field whose source vendor field
is missing from the raw record is the empty string — except the three
outlook fields, which default to `"stable"`, and the three watch fields,
which default to `"Not on watchlist"` — never absent and never `None`. -/
theorem c1_transform_defaults (d : RawRec) :
    (alookup d "ID_ISIN" = none → (transform_bloomberg_data d).isin = .vStr "") ∧
    (alookup d "ISSUER" = none → alookup d "ISSUER_BULK" = none →
      (transform_bloomberg_data d).issuer = .vStr "") ∧
    (alookup d "COUNTRY_ISO" = none → (transform_bloomberg_data d).country = .vStr "") ∧
    (alookup d "RTG_MOODY" = none → (transform_bloomberg_data d).moodys_rating = .vStr "") ∧
    (alookup d "RTG_SP" = none → (transform_bloomberg_data d).sp_rating = .vStr "") ∧
    (alookup d "RTG_FITCH" = none → (transform_bloomberg_data d).fitch_rating = .vStr "") ∧
    (alookup d "RTG_MOODY_RATING_DATE" = none →
      (transform_bloomberg_data d).moodys_rating_date = .vStr "") ∧
    (alookup d "RTG_SP_RATING_DATE" = none →
      (transform_bloomberg_data d).sp_rating_date = .vStr "") ∧
    (alookup d "RTG_FITCH_RATING_DATE" = none →
      (transform_bloomberg_data d).fitch_rating_date = .vStr "") ∧
    (alookup d "RTG_MOODY_OUTLOOK" = none →
      (transform_bloomberg_data d).moodys_outlook = "stable") ∧
    (alookup d "RTG_SP_OUTLOOK" = none →
      (transform_bloomberg_data d).sp_outlook = "stable") ∧
    (alookup d "RTG_FITCH_OUTLOOK" = none →
      (transform_bloomberg_data d).fitch_outlook = "stable") ∧
    (alookup d "RTG_MOODY_OUTLOOK_DT" = none →
      (transform_bloomberg_data d).moodys_outlook_date = .vStr "") ∧
    (alookup d "RTG_SP_OUTLOOK_DT" = none →
      (transform_bloomberg_data d).sp_outlook_date = .vStr "") ∧
    (alookup d "RTG_FITCH_OUTLOOK_DT" = none →
      (transform_bloomberg_data d).fitch_outlook_date = .vStr "") ∧
    (alookup d "RTG_MOODY_REVIEW" = none →
      (transform_bloomberg_data d).moodys_watch = "Not on watchlist") ∧
    (alookup d "RTG_SP_CREDITWATCH" = none →
      (transform_bloomberg_data d).sp_watch = "Not on watchlist") ∧
    (alookup d "RTG_FITCH_WATCH" = none →
      (transform_bloomberg_data d).fitch_watch = "Not on watchlist") ∧
    (alookup d "GICS_SECTOR_NAME" = none → (transform_bloomberg_data d).sector = .vStr "") ∧
    (alookup d "GICS_INDUSTRY_NAME" = none → (transform_bloomberg_data d).industry = .vStr "") := by
  refine ⟨?_, ?_, ?_, ?_, ?_, ?_, ?_, ?_, ?_, ?_, ?_, ?_, ?_, ?_, ?_, ?_, ?_, ?_, ?_, ?_⟩ <;>
    (intros ;
     simp_all [transform_bloomberg_data, pyGet, pyGetOpt, parse_outlook, parse_watchlist, pyTruthy])

/-- Witness for C1: the empty raw record produces the fully defaulted
record. -/
theorem c1_witness :
    (transform_bloomberg_data ([] : RawRec)).isin = .vStr "" ∧
    (transform_bloomberg_data ([] : RawRec)).issuer = .vStr "" ∧
    (transform_bloomberg_data ([] : RawRec)).moodys_outlook = "stable" ∧
    (transform_bloomberg_data ([] : RawRec)).moodys_watch = "Not on watchlist" := by
  obtain ⟨h1, h2, -, -, -, -, -, -, -, h10, -, -, -, -, -, h16, -⟩ :=
    c1_transform_defaults []
  exact ⟨h1 rfl, h2 rfl rfl, h10 rfl, h16 rfl⟩

/-- Claim C5: the transformed issuer equals the `ISSUER` field when
present, else the `ISSUER_BULK` field when present, else the empty
string. -/
theorem c5_issuer_fallback (d : RawRec) :
    (∀ v, alookup d "ISSUER" = some v → (transform_bloomberg_data d).issuer = v) ∧
    (alookup d "ISSUER" = none →
      ∀ v, alookup d "ISSUER_BULK" = some v → (transform_bloomberg_data d).issuer = v) ∧
    (alookup d "ISSUER" = none → alookup d "ISSUER_BULK" = none →
      (transform_bloomberg_data d).issuer = .vStr "") := by
  refine ⟨?_, ?_, ?_⟩ <;>
    (intros ; simp_all [transform_bloomberg_data, pyGet, pyGetOpt])

/-- Witness for C5: both fallback stages at concrete records. -/
theorem c5_witness :
    (transform_bloomberg_data [("ISSUER", PyVal.vStr "Acme")]).issuer = PyVal.vStr "Acme" ∧
    (transform_bloomberg_data [("ISSUER_BULK", PyVal.vStr "Bulk")]).issuer = PyVal.vStr "Bulk" := by
  have h1 := (c5_issuer_fallback [("ISSUER", PyVal.vStr "Acme")]).1
  have h2 := (c5_issuer_fallback [("ISSUER_BULK", PyVal.vStr "Bulk")]).2.1
  exact ⟨h1 _ (by decide), h2 (by decide) _ (by decide)⟩

/-! ## Claim C8: outlook normalization -/

/-- The range of `parse_outlook` is the canonical four-element outlook
enumeration. -/
theorem parse_outlook_mem (v : PyVal) :
    parse_outlook v = "positive" ∨ parse_outlook v = "negative" ∨
    parse_outlook v = "stable" ∨ parse_outlook v = "developing" := by
  unfold parse_outlook
  cases hpt : (!pyTruthy v)
  · simp only [hpt, Bool.false_eq_true, if_false]
    cases hl : alookup outlook_map (pyUpper (pyStr v)) with
    | none => simp
    | some s =>
      have hmem := alookup_mem outlook_map _ _ hl
      have hs : s ∈ outlook_map.map Prod.snd := List.mem_map_of_mem Prod.snd hmem
      simp only [outlook_map, List.map_cons, List.map_nil] at hs
      fin_cases hs <;> simp
  · simp [hpt]

/-- Claim C8: `parse_outlook` is idempotent (already-canonical values such
as `"stable"` map to themselves), case-insensitive on the recognized full
words and 3-letter abbreviations (any casing whose uppercasing is a
recognized token maps to the token's canonical value), maps `None` to
`"stable"`, and maps every unrecognized input to `"stable"`. -/
theorem c8_outlook_normalization :
    (∀ v, parse_outlook (PyVal.vStr (parse_outlook v)) = parse_outlook v) ∧
    parse_outlook (PyVal.vStr "stable") = "stable" ∧
    parse_outlook PyVal.vNone = "stable" ∧
    (∀ s, pyUpper s = "POSITIVE" ∨ pyUpper s = "POS" →
      parse_outlook (PyVal.vStr s) = "positive") ∧
    (∀ s, pyUpper s = "NEGATIVE" ∨ pyUpper s = "NEG" →
      parse_outlook (PyVal.vStr s) = "negative") ∧
    (∀ s, pyUpper s = "STABLE" ∨ pyUpper s = "STA" →
      parse_outlook (PyVal.vStr s) = "stable") ∧
    (∀ s, pyUpper s = "DEVELOPING" ∨ pyUpper s = "DEV" →
      parse_outlook (PyVal.vStr s) = "developing") ∧
    (∀ s, (∀ p ∈ outlook_map, pyUpper s ≠ p.1) → parse_outlook (PyVal.vStr s) = "stable") := by
  have hnonempty : ∀ (s : String) (t : String), pyUpper s = t → t ≠ "" → s ≠ "" := by
    rintro s t h ht rfl
    exact ht (h.symm.trans (by decide))
  have htoken : ∀ (s : String) (t r : String), pyUpper s = t →
      t ≠ "" → alookup outlook_map t = some r → parse_outlook (PyVal.vStr s) = r := by
    intro s t r h ht hl
    have hs : s ≠ "" := hnonempty s t h ht
    simp [parse_outlook, pyTruthy, pyStr, hs, h, hl]
  refine ⟨?_, by decide, by decide, ?_, ?_, ?_, ?_, ?_⟩
  · intro v
    rcases parse_outlook_mem v with h | h | h | h <;> rw [h] <;> decide
  · rintro s (h | h)
    · exact htoken s "POSITIVE" "positive" h (by decide) (by decide)
    · exact htoken s "POS" "positive" h (by decide) (by decide)
  · rintro s (h | h)
    · exact htoken s "NEGATIVE" "negative" h (by decide) (by decide)
    · exact htoken s "NEG" "negative" h (by decide) (by decide)
  · rintro s (h | h)
    · exact htoken s "STABLE" "stable" h (by decide) (by decide)
    · exact htoken s "STA" "stable" h (by decide) (by decide)
  · rintro s (h | h)
    · exact htoken s "DEVELOPING" "developing" h (by decide) (by decide)
    · exact htoken s "DEV" "developing" h (by decide) (by decide)
  · intro s h
    by_cases hs : s = ""
    · subst hs; decide
    · have hl : alookup outlook_map (pyUpper s) = none :=
        alookup_eq_none _ _ (fun p hp => h p hp)
      simp [parse_outlook, pyTruthy, pyStr, hs, hl]

/-- Witness for C8: idempotence, case-insensitive token matching and the
default, evaluated at concrete inputs. -/
theorem c8_witness :
    parse_outlook (PyVal.vStr (parse_outlook (PyVal.vStr "PoSiTiVe"))) =
      parse_outlook (PyVal.vStr "PoSiTiVe") ∧
    parse_outlook (PyVal.vStr "PoSiTiVe") = "positive" ∧
    parse_outlook (PyVal.vStr "neg") = "negative" ∧
    parse_outlook (PyVal.vStr "on review") = "stable" := by
  obtain ⟨hid, -, -, hpos, hneg, -, -, hun⟩ := c8_outlook_normalization
  exact ⟨hid _, hpos _ (Or.inl (by decide)), hneg _ (Or.inr (by decide)), hun _ (by decide)⟩

/-! ## Claim C2: the quota sentinel and its HTTP mapping -/

/-- Claim C2: the quota sentinel returned on the daily-quota error
subcategory is a value distinct from every identifier list (empty or not);
a message carrying that subcategory makes the screening loop return the
sentinel; and the `/api/bonds` handler maps the sentinel to HTTP 429 while
an empty (non-sentinel) screening result maps to HTTP 503. -/
theorem c2_quota_sentinel :
    (∀ l, ScreenResult.limitReached ≠ ScreenResult.ids l) ∧
    (∀ isins sub sd, strContains sub "DAILY_CAPACITY_REACHED" = true →
      processMsg isins ⟨some sub, sd⟩ = .limitHit) ∧
    (∀ oracle idx rest isins, isins.length < 3000 →
      drainIndex (oracle idx) isins = some .limitReached →
      screenGo oracle (idx :: rest) isins = some .limitReached) ∧
    (∀ limit so fo, screen_usd_bonds true so = some .limitReached →
      get_bonds true limit so fo = some limitResp ∧ limitResp.status = 429) ∧
    (∀ limit so fo, screen_usd_bonds true so = some (.ids []) →
      get_bonds true limit so fo = some noScreenResp ∧ noScreenResp.status = 503) := by
  refine ⟨?_, ?_, ?_, ?_, ?_⟩
  · intro l h
    exact ScreenResult.noConfusion h
  · intro isins sub sd h
    simp [processMsg, h]
  · intro oracle idx rest isins hlen hdrain
    have hge : ¬ isins.length ≥ 3000 := by omega
    simp [screenGo, hge, hdrain]
  · intro limit so fo h
    refine ⟨?_, rfl⟩
    simp [get_bonds, h]
  · intro limit so fo h
    refine ⟨?_, rfl⟩
    simp [get_bonds, h]

/-- Screening oracle whose first event carries the daily-quota error. -/
def c2QuotaOracle : String → List ScreenEvent :=
  fun _ => [⟨.partialResponse, [⟨some "DAILY_CAPACITY_REACHED", none⟩]⟩]

/-- Screening oracle whose every index returns an immediate empty
final response. -/
def c2EmptyOracle : String → List ScreenEvent :=
  fun _ => [⟨.response, []⟩]

/-- Witness for C2: the quota stream yields HTTP 429, the empty stream
HTTP 503. -/
theorem c2_witness :
    get_bonds true 3000 c2QuotaOracle (fun _ => []) = some limitResp ∧
    limitResp.status = 429 ∧
    get_bonds true 3000 c2EmptyOracle (fun _ => []) = some noScreenResp ∧
    noScreenResp.status = 503 := by
  have h4 := c2_quota_sentinel.2.2.2.1 3000 c2QuotaOracle (fun _ => []) (by decide)
  have h5 := c2_quota_sentinel.2.2.2.2 3000 c2EmptyOracle (fun _ => []) (by decide)
  exact ⟨h4.1, h4.2, h5.1, h5.2⟩

/-! ## Claim C6: the empty-issuer filter of `/api/bonds` -/

/-- Claim C6: every bond record in any `/api/bonds` payload has a truthy
(non-empty, non-`None`) issuer, so records with an empty issuer are always
excluded; and when every transformed record has a falsy issuer, the
handler returns the data-quality error payload
(HTTP 503, mode `"error"`, `bonds []`, `count 0`). -/
theorem c6_issuer_filter :
    (∀ connected limit so fo resp, get_bonds connected limit so fo = some resp →
      ∀ b ∈ resp.bonds, pyTruthy b.issuer = true) ∧
    (∀ limit so fo isins reqs data,
      screen_usd_bonds true so = some (.ids isins) → isins ≠ [] →
      fetch_reference_data bondFields fo (isins.take limit) = some (reqs, data) →
      data ≠ [] →
      (∀ p ∈ data, pyTruthy (transform_bloomberg_data p.2).issuer = false) →
      get_bonds true limit so fo = some dataQualityResp) ∧
    dataQualityResp.status = 503 ∧ dataQualityResp.mode = "error" ∧
    dataQualityResp.bonds = [] ∧ dataQualityResp.count = 0 := by
  refine ⟨?_, ?_, rfl, rfl, rfl, rfl⟩
  · intro connected limit so fo resp h b hb
    cases connected with
    | false =>
        simp [get_bonds, notConnectedResp] at h
        rw [← h] at hb
        simp at hb
    | true =>
        simp only [get_bonds, Bool.not_true, Bool.false_eq_true, if_false] at h
        cases hscr : screen_usd_bonds true so with
        | none => rw [hscr] at h; exact absurd h (by simp)
        | some r =>
          rw [hscr] at h
          cases r with
          | limitReached =>
              simp [limitResp] at h
              rw [← h] at hb
              simp at hb
          | ids isins =>
            by_cases hi : isins = []
            · simp [hi, noScreenResp] at h
              rw [← h] at hb
              simp at hb
            · simp only [hi, if_false] at h
              cases hf : fetch_reference_data bondFields fo (isins.take limit) with
              | none => rw [hf] at h; exact absurd h (by simp)
              | some pr =>
                obtain ⟨reqs, data⟩ := pr
                rw [hf] at h
                by_cases hd : data = []
                · simp [hd, noDataResp] at h
                  rw [← h] at hb
                  simp at hb
                · simp only [hd, if_false] at h
                  set valid := (data.map (fun p => transform_bloomberg_data p.2)).filter
                    (fun b => pyTruthy b.issuer) with hv
                  by_cases hvn : valid = []
                  · simp [hvn, dataQualityResp] at h
                    rw [← h] at hb
                    simp at hb
                  · simp only [hvn, if_false, Option.some_inj] at h
                    rw [← h] at hb
                    simp only at hb
                    exact (List.mem_filter.1 hb).2
  · intro limit so fo isins reqs data hscr hne hfetch hdat hall
    have hvalid : (data.map (fun p => transform_bloomberg_data p.2)).filter
        (fun b => pyTruthy b.issuer) = [] := by
      rw [List.filter_eq_nil_iff]
      intro b hb
      obtain ⟨p, hp, rfl⟩ := List.mem_map.1 hb
      simp [hall p hp]
    simp [get_bonds, hscr, hne, hfetch, hdat, hvalid]

/-- Screening oracle for the C6 witness: the first index yields the single
identifier `"S1"`, the others nothing. -/
def c6So : String → List ScreenEvent := fun idx =>
  if idx = "LEGATRUU Index" then
    [⟨.response, [⟨none, some [⟨false, some [("INDX_MEMBERS", [[("ISIN", "S1")]])]⟩]⟩]⟩]
  else [⟨.response, []⟩]

/-- Fetch oracle for the C6 witness: `"S1"` comes back with no fields at
all, so every canonical field is `None` and the issuer is falsy. -/
def c6Fo : Nat → List FetchEvent :=
  fun _ => [⟨.response, [⟨some [⟨"S1", false, []⟩]⟩]⟩]

/-- Witness for C6: a run where the only record lacks an issuer returns
the 503 data-quality payload. -/
theorem c6_witness : get_bonds true 3000 c6So c6Fo = some dataQualityResp := by
  exact c6_issuer_filter.2.1 3000 c6So c6Fo ["S1"] [["S1"]]
    [("S1", buildSecData bondFields [])]
    (by decide) (by decide) (by decide) (by decide) (by decide)

/-! ## Screening invariants: deduplication and the 3000 cap -/

/-- `addMember` appends a value only when it is not already present, so it
preserves `Nodup`. -/
theorem addMember_nodup :
    ∀ (subs : List String) (entry : List (String × String)) (isins : List String),
      isins.Nodup → (addMember subs entry isins).Nodup := by
  intro subs
  induction subs with
  | nil => intro entry isins h; exact h
  | cons sub rest ih =>
    intro entry isins h
    simp only [addMember]
    cases hl : alookup entry sub with
    | none => exact ih entry isins h
    | some val =>
      cases hcond : (decide (val ≠ "") && !List.contains isins val) with
      | false => simp only [hcond, Bool.false_eq_true, if_false]; exact ih entry isins h
      | true =>
        simp only [hcond, if_true]
        have hval : decide (val ≠ "") = true ∧ (!List.contains isins val) = true := by
          rw [← Bool.and_eq_true]; exact hcond
        have hnotmem : val ∉ isins := by
          intro hm
          have h2 := hval.2
          rw [Bool.not_eq_true'] at h2
          have h3 : List.elem val isins = true := List.elem_iff.2 hm
          exact absurd (h2.symm.trans h3) (by simp)
        rw [← List.concat_eq_append]
        exact List.Nodup.concat hnotmem h

/-- `processSecData` preserves `Nodup`. -/
theorem processSecData_nodup (isins : List String) (sd : ScreenSecData)
    (h : isins.Nodup) : (processSecData isins sd).Nodup := by
  unfold processSecData
  cases sd.securityError
  · cases sd.fieldData with
    | none => simpa using h
    | some fd =>
      simp only [Bool.false_eq_true, if_false]
      refine foldl_preserve (fun a => a.Nodup) ?_ screen_fields isins h
      intro a field ha
      cases alookup fd field with
      | none => exact ha
      | some members =>
        exact foldl_preserve (fun a2 => a2.Nodup)
          (fun a2 entry ha2 => addMember_nodup _ _ _ ha2) members a ha
  · simpa using h

/-- `processMsgs` preserves `Nodup` when it continues. -/
theorem processMsgs_nodup :
    ∀ (ms : List ScreenMsg) (isins is2 : List String),
      processMsgs ms isins = .cont is2 → isins.Nodup → is2.Nodup := by
  intro ms
  induction ms with
  | nil => intro isins is2 h hn; simp [processMsgs] at h; rwa [← h]
  | cons m rest ih =>
    intro isins is2 h hn
    simp only [processMsgs] at h
    cases hm : processMsg isins m with
    | limitHit => rw [hm] at h; exact absurd h (by simp)
    | cont is1 =>
      rw [hm] at h
      have h1 : is1.Nodup := by
        unfold processMsg at hm
        cases hre : m.responseError with
        | some sub =>
          rw [hre] at hm
          by_cases hq : strContains sub "DAILY_CAPACITY_REACHED" = true
          · simp [hq] at hm
          · simp only [hq, Bool.false_eq_true, if_false] at hm
            simp only [eq_self_iff_true, StepRes.cont.injEq] at hm
            rwa [← hm]
        | none =>
          rw [hre] at hm
          cases hsd : m.securityData with
          | none => rw [hsd] at hm; simp at hm; rwa [← hm]
          | some entries =>
            rw [hsd] at hm
            simp only [StepRes.cont.injEq] at hm
            rw [← hm]
            exact foldl_preserve (fun a => a.Nodup)
              (fun a sd ha => processSecData_nodup a sd ha) entries isins hn
      exact ih is1 is2 h h1

/-- `drainIndex` preserves `Nodup` when it finishes normally. -/
theorem drainIndex_nodup :
    ∀ (events : List ScreenEvent) (isins is2 : List String),
      drainIndex events isins = some (.finished is2) → isins.Nodup → is2.Nodup := by
  intro events
  induction events with
  | nil => intro isins is2 h _; simp [drainIndex] at h
  | cons e es ih =>
    intro isins is2 h hn
    simp only [drainIndex] at h
    by_cases ht : e.type = .response ∨ e.type = .partialResponse
    · simp only [ht, if_true] at h
      cases hm : processMsgs e.msgs isins with
      | limitHit => rw [hm] at h; exact absurd h (by simp)
      | cont is1 =>
        rw [hm] at h
        have h1 := processMsgs_nodup e.msgs isins is1 hm hn
        by_cases hr : e.type = .response
        · simp only [hr, if_true, Option.some_inj, IndexOutcome.finished.injEq] at h
          rwa [← h]
        · simp only [hr, if_false] at h
          exact ih is1 is2 h h1
    · simp only [ht, if_false] at h
      exact ih isins is2 h hn

/-- `screenGo` returns a deduplicated list of at most 3000 identifiers. -/
theorem screenGo_nodup_len (oracle : String → List ScreenEvent) :
    ∀ (idcs : List String) (isins l : List String),
      isins.Nodup → screenGo oracle idcs isins = some (.ids l) →
      l.Nodup ∧ l.length ≤ 3000 := by
  intro idcs
  induction idcs with
  | nil =>
    intro isins l hn h
    simp only [screenGo, Option.some_inj, ScreenResult.ids.injEq] at h
    rw [← h]
    by_cases hz : isins.length = 0
    · simp [hz]
    · simp only [hz, if_false]
      exact ⟨List.Sublist.nodup (List.take_sublist _ _) hn, by
        simp [List.length_take]⟩
  | cons idx rest ih =>
    intro isins l hn h
    simp only [screenGo] at h
    by_cases hge : isins.length ≥ 3000
    · simp only [hge, if_true, Option.some_inj, ScreenResult.ids.injEq] at h
      rw [← h]
      by_cases hz : isins.length = 0
      · simp [hz]
      · simp only [hz, if_false]
        exact ⟨List.Sublist.nodup (List.take_sublist _ _) hn, by
          simp [List.length_take]⟩
    · simp only [hge, if_false] at h
      cases hd : drainIndex (oracle idx) isins with
      | none => rw [hd] at h; exact absurd h (by simp)
      | some outcome =>
        rw [hd] at h
        cases outcome with
        | limitReached => exact absurd h (by simp)
        | finished is2 =>
          exact ih is2 l (drainIndex_nodup _ _ _ hd hn) h

/-- Claim C7: the identifier list returned by `screen_usd_bonds` contains
no duplicates and has length at most 3000. -/
theorem c7_screen_dedup (connected : Bool) (oracle : String → List ScreenEvent)
    (l : List String)
    (h : screen_usd_bonds connected oracle = some (.ids l)) :
    l.Nodup ∧ l.length ≤ 3000 := by
  unfold screen_usd_bonds at h
  cases connected with
  | false =>
    simp only [Bool.false_eq_true, if_false, Option.some_inj, ScreenResult.ids.injEq] at h
    rw [← h]
    simp
  | true =>
    simp only [if_true] at h
    exact screenGo_nodup_len oracle indices [] l List.nodup_nil h

/-- Witness for C7: a run where two indices echo the same identifier
returns it once. -/
theorem c7_witness :
    screen_usd_bonds true
      (fun _ => [⟨.response,
        [⟨none, some [⟨false, some [("INDX_MEMBERS", [[("ISIN", "DUP")]])]⟩]⟩]⟩]) =
      some (.ids ["DUP"]) ∧
    (["DUP"] : List String).Nodup ∧ (["DUP"] : List String).length ≤ 3000 := by
  have h := c7_screen_dedup true
    (fun _ => [⟨.response,
      [⟨none, some [⟨false, some [("INDX_MEMBERS", [[("ISIN", "DUP")]])]⟩]⟩]⟩])
    ["DUP"] (by decide)
  exact ⟨by decide, h.1, h.2⟩

/-! ## Claim C3: where the 3000 cap is actually enforced -/

theorem contains_eq_false_of_not_mem {a : String} {l : List String} (h : a ∉ l) :
    List.contains l a = false := by
  rw [Bool.eq_false_iff]
  intro hc
  exact h (List.elem_iff.1 hc)

theorem addMember_single_fresh (v : String) (isins : List String)
    (hne : v ≠ "") (hnm : v ∉ isins) :
    addMember sub_fields [("ISIN", v)] isins = isins ++ [v] := by
  simp [sub_fields, addMember, alookup]
  exact ⟨hne, hnm⟩

theorem fold_addMember_fresh :
    ∀ (vs isins : List String), vs.Nodup → (∀ v ∈ vs, v ≠ "" ∧ v ∉ isins) →
      (vs.map (fun v => [("ISIN", v)])).foldl
        (fun is2 entry => addMember sub_fields entry is2) isins = isins ++ vs := by
  intro vs
  induction vs with
  | nil => intro isins _ _; simp
  | cons v rest ih =>
    intro isins hnd hfresh
    simp only [List.map_cons, List.foldl_cons]
    have hv := hfresh v (List.mem_cons_self _ _)
    rw [addMember_single_fresh v isins hv.1 hv.2]
    have hvnotin : v ∉ rest := (List.nodup_cons.1 hnd).1
    have hrest : ∀ w ∈ rest, w ≠ "" ∧ w ∉ isins ++ [v] := by
      intro w hw
      have hfw := hfresh w (List.mem_cons_of_mem _ hw)
      refine ⟨hfw.1, ?_⟩
      intro hmem
      rcases List.mem_append.1 hmem with hm | hm
      · exact hfw.2 hm
      · rw [List.mem_singleton] at hm
        exact hvnotin (hm ▸ hw)
    rw [ih (isins ++ [v]) (List.nodup_cons.1 hnd).2 hrest]
    simp

def c3Ids : List String :=
  (List.range 3001).map (fun n => String.mk (List.replicate (n + 1) 'a'))

def c3Event : ScreenEvent :=
  ⟨.response, [⟨none, some [⟨false,
     some [("INDX_MEMBERS", c3Ids.map (fun v => [("ISIN", v)]))]⟩]⟩]⟩

theorem c3Ids_nodup : c3Ids.Nodup := by
  refine List.Nodup.map ?_ (List.nodup_range 3001)
  intro a b hab
  have hlen := congrArg String.length hab
  simp only [String.length_mk, List.length_replicate] at hlen
  omega

theorem c3Ids_fresh : ∀ v ∈ c3Ids, v ≠ "" ∧ v ∉ ([] : List String) := by
  intro v hv
  obtain ⟨n, -, rfl⟩ := List.mem_map.1 hv
  refine ⟨?_, List.not_mem_nil _⟩
  intro he
  have hlen := congrArg String.length he
  rw [String.length_mk, List.length_replicate,
    show ("" : String).length = 0 from rfl] at hlen
  omega

theorem drainIndex_single_members (members : List (List (String × String)))
    (isins : List String) :
    drainIndex [⟨.response, [⟨none, some [⟨false,
        some [("INDX_MEMBERS", members)]⟩]⟩]⟩] isins =
      some (.finished (members.foldl
        (fun is2 entry => addMember sub_fields entry is2) isins)) := by
  simp only [drainIndex, processMsgs, processMsg, processSecData, screen_fields,
    List.foldl_cons, List.foldl_nil, alookup]
  simp

theorem c3_counterexample :
    drainIndex [c3Event] [] = some (.finished c3Ids) ∧
    c3Ids.Nodup ∧ c3Ids.length = 3001 := by
  refine ⟨?_, c3Ids_nodup, by simp [c3Ids]⟩
  have hfold := fold_addMember_fresh c3Ids [] c3Ids_nodup c3Ids_fresh
  have h2 : (c3Ids.map (fun v => [("ISIN", v)])).foldl
      (fun is2 entry => addMember sub_fields entry is2) [] = c3Ids :=
    hfold.trans (List.nil_append c3Ids)
  have h1 := drainIndex_single_members (c3Ids.map (fun v => [("ISIN", v)])) []
  rw [h2] at h1
  exact h1

/-- Claim C3 (amended): the 3000 cap is checked only at index boundaries —
once at least 3000 unique identifiers have accumulated, no further index
is processed and the accumulated list is returned truncated to 3000; every
returned list has length at most 3000; but within the current index's
event stream appending continues past 3000 (see the counterexample). -/
theorem c3_cap_between_indices :
    (∀ oracle idx rest isins, isins.length ≥ 3000 →
      screenGo oracle (idx :: rest) isins = some (.ids (isins.take 3000))) ∧
    (∀ connected oracle l, screen_usd_bonds connected oracle = some (.ids l) →
      l.length ≤ 3000) := by
  constructor
  · intro oracle idx rest isins hge
    have hz : ¬ isins.length = 0 := by omega
    simp [screenGo, hge, hz]
  · intro connected oracle l h
    unfold screen_usd_bonds at h
    cases connected with
    | false =>
      simp only [Bool.false_eq_true, if_false, Option.some_inj,
        ScreenResult.ids.injEq] at h
      simp [← h]
    | true =>
      simp only [if_true] at h
      exact (screenGo_nodup_len oracle indices [] l List.nodup_nil h).2

/-- Witness for C3 (amended): with 3000 identifiers already accumulated,
the remaining indices are skipped and the list is returned as-is. -/
theorem c3_cap_witness :
    screenGo (fun _ => []) ["LUACTRUU Index"] ((List.range 3000).map toString) =
      some (.ids (((List.range 3000).map toString).take 3000)) := by
  exact c3_cap_between_indices.1 (fun _ => []) "LUACTRUU Index" []
    ((List.range 3000).map toString) (by simp)

/-! ## Claim C4: batching and the merged mapping of `fetch_reference_data` -/

/-- The prefix of an event stream that the draining loop actually
consumes: everything up to and including the first final-response
event. -/
def consumed : List FetchEvent → List FetchEvent
  | [] => []
  | e :: es => if e.type = .response then [e] else e :: consumed es

theorem batchesGo_congr :
    ∀ (f1 f2 : Nat) (l : List String), l.length ≤ f1 → l.length ≤ f2 →
      batchesGo f1 l = batchesGo f2 l := by
  intro f1
  induction f1 with
  | zero =>
    intro f2 l h1 _
    have hl : l = [] := List.eq_nil_of_length_eq_zero (by omega)
    subst hl
    cases f2 <;> rfl
  | succ f ih =>
    intro f2 l h1 h2
    cases l with
    | nil => cases f2 <;> rfl
    | cons s ss =>
      cases f2 with
      | zero => simp at h2
      | succ f2' =>
        simp only [batchesGo]
        congr 1
        apply ih
        · simp only [List.length_drop, List.length_cons] at *
          omega
        · simp only [List.length_drop, List.length_cons] at *
          omega

theorem batches_cons (l : List String) (h : l ≠ []) :
    batches l = l.take 100 :: batches (l.drop 100) := by
  cases l with
  | nil => contradiction
  | cons s ss =>
    show batchesGo (s :: ss).length (s :: ss) = _
    simp only [List.length_cons, batchesGo]
    congr 1
    exact batchesGo_congr _ _ _
      (by simp only [List.length_drop, List.length_cons]; omega) (le_refl _)

theorem batches_join_aux :
    ∀ (n : Nat) (l : List String), l.length ≤ n → (batches l).flatten = l := by
  intro n
  induction n with
  | zero =>
    intro l h
    have hl : l = [] := List.eq_nil_of_length_eq_zero (by omega)
    subst hl
    rfl
  | succ n ih =>
    intro l h
    by_cases hl : l = []
    · subst hl; rfl
    · rw [batches_cons l hl]
      have hp : 0 < l.length := List.length_pos.2 hl
      simp only [List.flatten_cons]
      rw [ih (l.drop 100) (by simp only [List.length_drop]; omega)]
      exact List.take_append_drop 100 l

/-- The batches partition the input. -/
theorem batches_join (l : List String) : (batches l).flatten = l :=
  batches_join_aux l.length l (le_refl _)

theorem batches_sizes_aux :
    ∀ (n : Nat) (l : List String), l.length ≤ n →
      ∀ b ∈ batches l, b ≠ [] ∧ b.length ≤ 100 := by
  intro n
  induction n with
  | zero =>
    intro l h b hb
    have hl : l = [] := List.eq_nil_of_length_eq_zero (by omega)
    subst hl
    simp [batches, batchesGo] at hb
  | succ n ih =>
    intro l h b hb
    by_cases hl : l = []
    · subst hl; simp [batches, batchesGo] at hb
    · rw [batches_cons l hl] at hb
      have hp : 0 < l.length := List.length_pos.2 hl
      rcases List.mem_cons.1 hb with hb | hb
      · subst hb
        constructor
        · intro he
          rw [List.take_eq_nil_iff] at he
          rcases he with he | he
          · exact absurd he (by omega)
          · exact hl he
        · simp only [List.length_take]
          omega
      · exact ih (l.drop 100) (by simp only [List.length_drop]; omega) b hb

/-- Every batch is nonempty and holds at most 100 identifiers. -/
theorem batches_sizes (l : List String) :
    ∀ b ∈ batches l, b ≠ [] ∧ b.length ≤ 100 :=
  batches_sizes_aux l.length l (le_refl _)

/-- 250 identifiers slice into batch sizes 100, 100, 50. -/
theorem batches_map_length_250 (l : List String) (h : l.length = 250) :
    (batches l).map List.length = [100, 100, 50] := by
  have h1 : l ≠ [] := by intro he; rw [he] at h; simp at h
  have hd1 : (l.drop 100).length = 150 := by simp only [List.length_drop]; omega
  have h2 : l.drop 100 ≠ [] := by
    intro he; rw [he] at hd1; simp at hd1
  have hd2 : ((l.drop 100).drop 100).length = 50 := by
    simp only [List.length_drop]; omega
  have h3 : (l.drop 100).drop 100 ≠ [] := by
    intro he; rw [he] at hd2; simp at hd2
  have hd3 : (((l.drop 100).drop 100).drop 100) = [] :=
    List.eq_nil_of_length_eq_zero (by simp only [List.length_drop]; omega)
  rw [batches_cons l h1, batches_cons _ h2, batches_cons _ h3, hd3]
  simp [batches, batchesGo, List.length_take, h, hd1, hd2]

/-- Stripping leaves the request size unchanged when no identifier strips
to the empty string. -/
theorem mkRequest_length (b : List String) (h : ∀ s ∈ b, pyStrip s ≠ "") :
    (mkRequest b).length = b.length := by
  induction b with
  | nil => rfl
  | cons s ss ih =>
    have hs := h s (List.mem_cons_self _ _)
    simp only [mkRequest, List.filterMap_cons, hs, if_false, List.length_cons]
    have := ih (fun t ht => h t (List.mem_cons_of_mem _ ht))
    simp only [mkRequest] at this
    rw [this]

/-- `fetchGo` issues exactly one request per batch, in order. -/
theorem fetchGo_reqs (fields : List String) (oracle : Nat → List FetchEvent) :
    ∀ (bs : List (List String)) (i : Nat) (reqs : List (List String))
      (acc : ResultsMap) (rs : List (List String)) (res : ResultsMap),
      fetchGo fields oracle bs i reqs acc = some (rs, res) →
      rs = reqs ++ bs.map mkRequest := by
  intro bs
  induction bs with
  | nil =>
    intro i reqs acc rs res h
    simp only [fetchGo, Option.some_inj, Prod.mk.injEq] at h
    simp [← h.1]
  | cons b rest ih =>
    intro i reqs acc rs res h
    simp only [fetchGo] at h
    cases hd : fetchDrain fields (oracle i) acc with
    | none => rw [hd] at h; exact absurd h (by simp)
    | some acc2 =>
      rw [hd] at h
      rw [ih (i + 1) (reqs ++ [mkRequest b]) acc2 rs res h]
      simp

/-- Keys already stored survive one message. -/
theorem processFetchMsg_isSome (fields : List String) (acc : ResultsMap)
    (m : FetchMsg) (k : String) (h : (alookup acc k).isSome) :
    (alookup (processFetchMsg fields acc m) k).isSome := by
  unfold processFetchMsg
  cases m.securityData with
  | none => exact h
  | some entries =>
    refine foldl_preserve (fun a => (alookup a k).isSome = true) ?_ entries acc h
    intro a e ha
    cases he : e.securityError with
    | true => simpa [he] using ha
    | false =>
      simp only [he, Bool.false_eq_true, if_false]
      exact alookup_dinsert_isSome _ _ _ _ ha

/-- The per-entry fold stores every error-free entry. -/
theorem foldl_store_adds (fields : List String) :
    ∀ (entries : List FetchSecData) (acc : ResultsMap) (en : FetchSecData),
      en ∈ entries → en.securityError = false →
      (alookup (entries.foldl (fun a e =>
        if e.securityError then a
        else dinsert a e.security (buildSecData fields e.fieldData)) acc)
          en.security).isSome := by
  intro entries
  induction entries with
  | nil => intro acc en hmem; simp at hmem
  | cons e rest ih =>
    intro acc en hmem herr
    simp only [List.foldl_cons]
    rcases List.mem_cons.1 hmem with hmem | hmem
    · subst hmem
      simp only [herr, Bool.false_eq_true, if_false]
      refine foldl_preserve (fun a => (alookup a en.security).isSome = true) ?_ rest _ ?_
      · intro a e2 ha
        cases he2 : e2.securityError with
        | true => simpa [he2] using ha
        | false =>
          simp only [he2, Bool.false_eq_true, if_false]
          exact alookup_dinsert_isSome _ _ _ _ ha
      · simp [alookup_dinsert_self]
    · exact ih _ en hmem herr

/-- One processed message stores every error-free entry it carries. -/
theorem processFetchMsg_adds (fields : List String) (acc : ResultsMap)
    (m : FetchMsg) (sd : List FetchSecData) (hsd : m.securityData = some sd)
    (en : FetchSecData) (hmem : en ∈ sd) (herr : en.securityError = false) :
    (alookup (processFetchMsg fields acc m) en.security).isSome := by
  unfold processFetchMsg
  rw [hsd]
  exact foldl_store_adds fields sd acc en hmem herr

/-- Keys already stored survive one event. -/
theorem processFetchEvent_isSome (fields : List String) (acc : ResultsMap)
    (e : FetchEvent) (k : String) (h : (alookup acc k).isSome) :
    (alookup (processFetchEvent fields acc e) k).isSome := by
  unfold processFetchEvent
  exact foldl_preserve (fun a => (alookup a k).isSome = true)
    (fun a m ha => processFetchMsg_isSome fields a m k ha) e.msgs acc h

/-- One processed event stores every error-free entry of its messages. -/
theorem processFetchEvent_adds (fields : List String) :
    ∀ (msgs : List FetchMsg) (acc : ResultsMap) (m : FetchMsg), m ∈ msgs →
      ∀ (sd : List FetchSecData), m.securityData = some sd →
      ∀ en ∈ sd, en.securityError = false →
      (alookup (msgs.foldl (processFetchMsg fields) acc) en.security).isSome := by
  intro msgs
  induction msgs with
  | nil => intro acc m hm; simp at hm
  | cons m0 rest ih =>
    intro acc m hm sd hsd en hen herr
    simp only [List.foldl_cons]
    rcases List.mem_cons.1 hm with hm | hm
    · subst hm
      refine foldl_preserve (fun a => (alookup a en.security).isSome = true)
        (fun a m2 ha => processFetchMsg_isSome fields a m2 _ ha) rest _ ?_
      exact processFetchMsg_adds fields acc m sd hsd en hen herr
    · exact ih _ m hm sd hsd en hen herr

/-- Keys already stored survive draining a whole stream. -/
theorem fetchDrain_isSome (fields : List String) :
    ∀ (events : List FetchEvent) (acc acc2 : ResultsMap),
      fetchDrain fields events acc = some acc2 →
      ∀ k, (alookup acc k).isSome → (alookup acc2 k).isSome := by
  intro events
  induction events with
  | nil => intro acc acc2 h; simp [fetchDrain] at h
  | cons e es ih =>
    intro acc acc2 h k hk
    simp only [fetchDrain] at h
    by_cases ht : e.type = .response ∨ e.type = .partialResponse
    · simp only [ht, if_true] at h
      by_cases hr : e.type = .response
      · simp only [hr, if_true, Option.some_inj] at h
        rw [← h]
        exact processFetchEvent_isSome fields acc e k hk
      · simp only [hr, if_false] at h
        exact ih _ _ h k (processFetchEvent_isSome fields acc e k hk)
    · simp only [ht, if_false] at h
      exact ih _ _ h k hk

/-- Draining a stream stores every error-free entry of every processed
event it consumes. -/
theorem fetchDrain_adds (fields : List String) :
    ∀ (events : List FetchEvent) (acc acc2 : ResultsMap),
      fetchDrain fields events acc = some acc2 →
      ∀ e ∈ consumed events, (e.type = .response ∨ e.type = .partialResponse) →
      ∀ m ∈ e.msgs, ∀ (sd : List FetchSecData), m.securityData = some sd →
      ∀ en ∈ sd, en.securityError = false →
      (alookup acc2 en.security).isSome := by
  intro events
  induction events with
  | nil => intro acc acc2 h; simp [fetchDrain] at h
  | cons ev es ih =>
    intro acc acc2 h e he htype m hm sd hsd en hen herr
    simp only [fetchDrain] at h
    by_cases ht : ev.type = .response ∨ ev.type = .partialResponse
    · simp only [ht, if_true] at h
      by_cases hr : ev.type = .response
      · simp only [hr, if_true, Option.some_inj] at h
        simp only [consumed, hr, if_true, List.mem_singleton] at he
        subst he
        rw [← h]
        exact processFetchEvent_adds fields e.msgs acc m hm sd hsd en hen herr
      · simp only [hr, if_false] at h
        simp only [consumed, hr, if_false, List.mem_cons] at he
        rcases he with he | he
        · subst he
          exact fetchDrain_isSome fields es _ _ h _
            (processFetchEvent_adds fields e.msgs acc m hm sd hsd en hen herr)
        · exact ih _ _ h e he htype m hm sd hsd en hen herr
    · simp only [ht, if_false] at h
      have hne : ¬ ev.type = .response := fun hc => ht (Or.inl hc)
      simp only [consumed, hne, if_false, List.mem_cons] at he
      rcases he with he | he
      · subst he; exact absurd htype ht
      · exact ih _ _ h e he htype m hm sd hsd en hen herr

/-- Along the whole batched run: stored keys persist, and every error-free
entry echoed in a consumed processed event of any batch ends up stored. -/
theorem fetchGo_adds (fields : List String) (oracle : Nat → List FetchEvent) :
    ∀ (bs : List (List String)) (i : Nat) (reqs : List (List String))
      (acc : ResultsMap) (rs : List (List String)) (res : ResultsMap),
      fetchGo fields oracle bs i reqs acc = some (rs, res) →
      (∀ k, (alookup acc k).isSome → (alookup res k).isSome) ∧
      (∀ j, j < bs.length → ∀ e ∈ consumed (oracle (i + j)),
        (e.type = .response ∨ e.type = .partialResponse) →
        ∀ m ∈ e.msgs, ∀ (sd : List FetchSecData), m.securityData = some sd →
        ∀ en ∈ sd, en.securityError = false →
        (alookup res en.security).isSome) := by
  intro bs
  induction bs with
  | nil =>
    intro i reqs acc rs res h
    simp only [fetchGo, Option.some_inj, Prod.mk.injEq] at h
    refine ⟨fun k hk => ?_, fun j hj => by simp at hj⟩
    rw [← h.2]; exact hk
  | cons b rest ih =>
    intro i reqs acc rs res h
    simp only [fetchGo] at h
    cases hd : fetchDrain fields (oracle i) acc with
    | none => rw [hd] at h; exact absurd h (by simp)
    | some acc2 =>
      rw [hd] at h
      have hih := ih (i + 1) (reqs ++ [mkRequest b]) acc2 rs res h
      refine ⟨fun k hk => hih.1 k (fetchDrain_isSome fields _ _ _ hd k hk), ?_⟩
      intro j hj e he htype m hm sd hsd en hen herr
      cases j with
      | zero =>
        rw [Nat.add_zero] at he
        exact hih.1 _ (fetchDrain_adds fields _ _ _ hd e he htype m hm sd hsd en hen herr)
      | succ j' =>
        have harith : i + (j' + 1) = (i + 1) + j' := by omega
        rw [harith] at he
        exact hih.2 j' (by simpa using hj) e he htype m hm sd hsd en hen herr

/-- Claim C4: `fetch_reference_data` on an empty identifier list returns
the empty mapping and issues no request; otherwise it partitions the input
into consecutive nonempty batches of at most 100 and issues exactly one
request per batch — 250 identifiers yield exactly the request sizes
100, 100, 50 — and the merged mapping has an entry for every identifier
echoed back without a security-level error in the consumed events. -/
theorem c4_fetch_batching :
    (∀ fields oracle, fetch_reference_data fields oracle [] = some ([], [])) ∧
    (∀ secs : List String, (batches secs).flatten = secs ∧
      ∀ b ∈ batches secs, b ≠ [] ∧ b.length ≤ 100) ∧
    (∀ fields oracle secs reqs res,
      fetch_reference_data fields oracle secs = some (reqs, res) →
      reqs = (batches secs).map mkRequest) ∧
    (∀ fields oracle secs reqs res, secs.length = 250 →
      (∀ s ∈ secs, pyStrip s ≠ "") →
      fetch_reference_data fields oracle secs = some (reqs, res) →
      reqs.length = 3 ∧ reqs.map List.length = [100, 100, 50]) ∧
    (∀ fields oracle secs reqs res,
      fetch_reference_data fields oracle secs = some (reqs, res) →
      ∀ j, j < (batches secs).length → ∀ e ∈ consumed (oracle j),
        (e.type = .response ∨ e.type = .partialResponse) →
        ∀ m ∈ e.msgs, ∀ (sd : List FetchSecData), m.securityData = some sd →
        ∀ en ∈ sd, en.securityError = false →
        (alookup res en.security).isSome) := by
  refine ⟨fun fields oracle => rfl, fun secs => ⟨batches_join secs, batches_sizes secs⟩,
    ?_, ?_, ?_⟩
  · intro fields oracle secs reqs res h
    unfold fetch_reference_data at h
    by_cases hs : secs = []
    · subst hs
      simp only [if_true] at h
      simp only [Option.some_inj, Prod.mk.injEq] at h
      simp [← h.1, batches, batchesGo]
    · simp only [hs, if_false] at h
      simpa using fetchGo_reqs fields oracle (batches secs) 0 [] [] reqs res h
  · intro fields oracle secs reqs res hlen hstrip h
    have hreqs : reqs = (batches secs).map mkRequest := by
      unfold fetch_reference_data at h
      have hs : secs ≠ [] := by intro he; rw [he] at hlen; simp at hlen
      simp only [hs, if_false] at h
      simpa using fetchGo_reqs fields oracle (batches secs) 0 [] [] reqs res h
    have hmap : reqs.map List.length = (batches secs).map List.length := by
      rw [hreqs, List.map_map]
      refine List.map_congr_left ?_
      intro b hb
      refine mkRequest_length b ?_
      intro s hs
      refine hstrip s ?_
      rw [← batches_join secs]
      exact List.mem_flatten_of_mem hb hs
    have h3 : reqs.map List.length = [100, 100, 50] :=
      hmap.trans (batches_map_length_250 secs hlen)
    refine ⟨?_, h3⟩
    have h4 := congrArg List.length h3
    simpa using h4
  · intro fields oracle secs reqs res h j hj e he htype m hm sd hsd en hen herr
    unfold fetch_reference_data at h
    by_cases hs : secs = []
    · subst hs
      simp [batches, batchesGo] at hj
    · simp only [hs, if_false] at h
      have := (fetchGo_adds fields oracle (batches secs) 0 [] [] reqs res h).2 j hj
      rw [Nat.zero_add] at this
      exact this e he htype m hm sd hsd en hen herr

/-- Fetch oracle for the C4 witness: every batch answers with an immediate
empty final response. -/
def c4Oracle : Nat → List FetchEvent := fun _ => [⟨.response, []⟩]

/-- The three requests issued for 250 copies of `"X"`. -/
def c4Reqs : List (List String) :=
  [List.replicate 100 "X", List.replicate 100 "X", List.replicate 50 "X"]

set_option maxRecDepth 8192 in
/-- Witness for C4: 250 identifiers yield exactly three requests of sizes
100, 100 and 50. -/
theorem c4_witness :
    fetch_reference_data [] c4Oracle (List.replicate 250 "X") = some (c4Reqs, []) ∧
    c4Reqs.map List.length = [100, 100, 50] := by
  have hfetch : fetch_reference_data [] c4Oracle (List.replicate 250 "X") =
      some (c4Reqs, []) := by decide
  refine ⟨hfetch, ?_⟩
  exact (c4_fetch_batching.2.2.2.1 [] c4Oracle (List.replicate 250 "X") c4Reqs []
    (by simp)
    (fun s hs => by rw [List.eq_of_mem_replicate hs]; decide)
    hfetch).2

/-! ## Claim C10: the key set of every fetched record -/

theorem foldl_buildSecData_lookup (fd : List (String × FieldVal)) :
    ∀ (fields : List String) (d0 : RawRec) (f : String),
      alookup (fields.foldl (fun d g => dinsert d g (fieldValue fd g)) d0) f =
        if f ∈ fields then some (fieldValue fd f) else alookup d0 f := by
  intro fields
  induction fields with
  | nil => intro d0 f; simp
  | cons g gs ih =>
    intro d0 f
    simp only [List.foldl_cons]
    rw [ih]
    by_cases hgs : f ∈ gs
    · simp [hgs]
    · by_cases hg : f = g
      · subst hg
        simp [hgs, alookup_dinsert_self]
      · have : f ∉ g :: gs := by
          intro hm
          rcases List.mem_cons.1 hm with hm | hm
          · exact hg hm
          · exact hgs hm
        simp only [hgs, if_false, this]
        rw [alookup_dinsert_ne _ _ _ _ (fun he => hg he.symm)]

/-- The record built per security answers exactly the requested fields:
requested fields with their (possibly `None`) value, anything else with a
missing key. -/
theorem buildSecData_lookup (fields : List String) (fd : List (String × FieldVal))
    (f : String) :
    alookup (buildSecData fields fd) f =
      if f ∈ fields then some (fieldValue fd f) else none := by
  unfold buildSecData
  rw [foldl_buildSecData_lookup]
  rfl

/-- One message preserves the invariant that every stored record is a
`buildSecData` image. -/
theorem processFetchMsg_shape (fields : List String) (acc : ResultsMap) (m : FetchMsg)
    (hacc : ∀ p ∈ acc, ∃ fd, p.2 = buildSecData fields fd) :
    ∀ p ∈ processFetchMsg fields acc m, ∃ fd, p.2 = buildSecData fields fd := by
  unfold processFetchMsg
  cases m.securityData with
  | none => exact hacc
  | some entries =>
    refine foldl_preserve
      (fun a => ∀ p ∈ a, ∃ fd, p.2 = buildSecData fields fd) ?_ entries acc hacc
    intro a e ha
    cases he : e.securityError with
    | true => simpa [he] using ha
    | false =>
      simp only [he, Bool.false_eq_true, if_false]
      intro p hp
      rcases mem_dinsert _ _ _ _ hp with hp | hp
      · exact ha p hp
      · exact ⟨e.fieldData, by rw [hp]⟩

/-- One event preserves the record-shape invariant. -/
theorem processFetchEvent_shape (fields : List String) (acc : ResultsMap) (e : FetchEvent)
    (hacc : ∀ p ∈ acc, ∃ fd, p.2 = buildSecData fields fd) :
    ∀ p ∈ processFetchEvent fields acc e, ∃ fd, p.2 = buildSecData fields fd := by
  unfold processFetchEvent
  exact foldl_preserve (fun a => ∀ p ∈ a, ∃ fd, p.2 = buildSecData fields fd)
    (fun a m ha => processFetchMsg_shape fields a m ha) e.msgs acc hacc

/-- Draining preserves the record-shape invariant. -/
theorem fetchDrain_shape (fields : List String) :
    ∀ (events : List FetchEvent) (acc acc2 : ResultsMap),
      fetchDrain fields events acc = some acc2 →
      (∀ p ∈ acc, ∃ fd, p.2 = buildSecData fields fd) →
      ∀ p ∈ acc2, ∃ fd, p.2 = buildSecData fields fd := by
  intro events
  induction events with
  | nil => intro acc acc2 h; simp [fetchDrain] at h
  | cons e es ih =>
    intro acc acc2 h hacc
    simp only [fetchDrain] at h
    by_cases ht : e.type = .response ∨ e.type = .partialResponse
    · simp only [ht, if_true] at h
      by_cases hr : e.type = .response
      · simp only [hr, if_true, Option.some_inj] at h
        rw [← h]
        exact processFetchEvent_shape fields acc e hacc
      · simp only [hr, if_false] at h
        exact ih _ _ h (processFetchEvent_shape fields acc e hacc)
    · simp only [ht, if_false] at h
      exact ih _ _ h hacc

/-- The batched run preserves the record-shape invariant. -/
theorem fetchGo_shape (fields : List String) (oracle : Nat → List FetchEvent) :
    ∀ (bs : List (List String)) (i : Nat) (reqs : List (List String))
      (acc : ResultsMap) (rs : List (List String)) (res : ResultsMap),
      fetchGo fields oracle bs i reqs acc = some (rs, res) →
      (∀ p ∈ acc, ∃ fd, p.2 = buildSecData fields fd) →
      ∀ p ∈ res, ∃ fd, p.2 = buildSecData fields fd := by
  intro bs
  induction bs with
  | nil =>
    intro i reqs acc rs res h hacc
    simp only [fetchGo, Option.some_inj, Prod.mk.injEq] at h
    rw [← h.2]
    exact hacc
  | cons b rest ih =>
    intro i reqs acc rs res h hacc
    simp only [fetchGo] at h
    cases hd : fetchDrain fields (oracle i) acc with
    | none => rw [hd] at h; exact absurd h (by simp)
    | some acc2 =>
      rw [hd] at h
      exact ih _ _ _ rs res h (fetchDrain_shape fields _ _ _ hd hacc)

/-- Claim C10: every record in the mapping returned by
`fetch_reference_data` has exactly the requested field list as its key
set — a requested field absent from the vendor response is present with
value `None`, and no other key occurs — so consumers observe absence only
as a `None` value, never as a missing key. -/
theorem c10_record_keys (fields : List String) (oracle : Nat → List FetchEvent)
    (secs : List String) (reqs : List (List String)) (res : ResultsMap)
    (h : fetch_reference_data fields oracle secs = some (reqs, res)) :
    ∀ p ∈ res, ∃ fd, p.2 = buildSecData fields fd ∧
      (∀ f, (alookup p.2 f).isSome ↔ f ∈ fields) ∧
      (∀ f ∈ fields, alookup fd f = none → alookup p.2 f = some PyVal.vNone) := by
  intro p hp
  have hshape : ∃ fd, p.2 = buildSecData fields fd := by
    unfold fetch_reference_data at h
    by_cases hs : secs = []
    · subst hs
      simp only [if_true, Option.some_inj, Prod.mk.injEq] at h
      rw [← h.2] at hp
      simp at hp
    · simp only [hs, if_false] at h
      exact fetchGo_shape fields oracle (batches secs) 0 [] [] reqs res h
        (by intro q hq; simp at hq) p hp
  obtain ⟨fd, hfd⟩ := hshape
  refine ⟨fd, hfd, ?_, ?_⟩
  · intro f
    rw [hfd, buildSecData_lookup]
    by_cases hf : f ∈ fields <;> simp [hf]
  · intro f hf hnone
    rw [hfd, buildSecData_lookup]
    simp only [hf, if_true]
    unfold fieldValue
    rw [hnone]

/-- Fetch oracle for the C10 witness: one security, echoed with no field
values at all. -/
def c10Oracle : Nat → List FetchEvent :=
  fun _ => [⟨.response, [⟨some [⟨"S1", false, []⟩]⟩]⟩]

/-- Witness for C10: the single returned record answers the one requested
field with an explicit `None`. -/
theorem c10_witness :
    fetch_reference_data ["FLD"] c10Oracle ["S1"] =
      some ([["S1"]], [("S1", [("FLD", PyVal.vNone)])]) ∧
    alookup [("FLD", PyVal.vNone)] "FLD" = some PyVal.vNone ∧
    ((alookup [("FLD", PyVal.vNone)] "OTHER").isSome ↔ "OTHER" ∈ ["FLD"]) := by
  have hfetch : fetch_reference_data ["FLD"] c10Oracle ["S1"] =
      some ([["S1"]], [("S1", [("FLD", PyVal.vNone)])]) := by decide
  obtain ⟨fd, hfd, hiff, hnone⟩ :=
    c10_record_keys ["FLD"] c10Oracle ["S1"] [["S1"]] [("S1", [("FLD", PyVal.vNone)])]
      hfetch ("S1", [("FLD", PyVal.vNone)]) (by simp)
  refine ⟨hfetch, ?_, ?_⟩
  · have heq := congrArg (fun r => alookup r "FLD") hfd
    simp only [buildSecData_lookup] at heq
    rw [if_pos (by simp)] at heq
    have h2 : alookup [("FLD", PyVal.vNone)] "FLD" = some PyVal.vNone := by decide
    rw [h2] at heq
    have hval : fieldValue fd "FLD" = PyVal.vNone := (Option.some_inj.1 heq).symm
    have hn : alookup fd "FLD" = none := by
      unfold fieldValue at hval
      cases hl : alookup fd "FLD" with
      | none => rfl
      | some v => rw [hl] at hval; cases v <;> simp [pyOfField] at hval
    exact hnone "FLD" (by simp) hn
  · exact hiff "OTHER"

/-! ## Claim C9: termination behaviour of the event-draining loops -/

/-- The fetch draining loop completes on no finite stream that lacks a
final-response event (it would poll forever). -/
theorem fetchDrain_no_final (fields : List String) :
    ∀ (events : List FetchEvent) (acc : ResultsMap),
      (∀ e ∈ events, e.type ≠ .response) → fetchDrain fields events acc = none := by
  intro events
  induction events with
  | nil => intro acc _; rfl
  | cons e es ih =>
    intro acc h
    have he : e.type ≠ .response := h e (List.mem_cons_self _ _)
    have hrest : ∀ x ∈ es, x.type ≠ .response := fun x hx => h x (List.mem_cons_of_mem _ hx)
    simp only [fetchDrain]
    by_cases ht : e.type = .response ∨ e.type = .partialResponse
    · rw [if_pos ht, if_neg he]
      exact ih _ hrest
    · rw [if_neg ht]
      exact ih _ hrest

/-- The fetch draining loop stops exactly at the first final-response
event: events after it are never consumed, and the loop completes there. -/
theorem fetchDrain_stops_at_final (fields : List String) :
    ∀ (pre : List FetchEvent) (e : FetchEvent) (post : List FetchEvent) (acc : ResultsMap),
      (∀ x ∈ pre, x.type ≠ .response) → e.type = .response →
      fetchDrain fields (pre ++ e :: post) acc = fetchDrain fields (pre ++ [e]) acc ∧
      (fetchDrain fields (pre ++ [e]) acc).isSome := by
  intro pre
  induction pre with
  | nil =>
    intro e post acc _ he
    simp only [List.nil_append, fetchDrain]
    rw [if_pos (Or.inl he), if_pos (Or.inl he), if_pos he, if_pos he]
    simp
  | cons x xs ih =>
    intro e post acc hpre he
    have hx : x.type ≠ .response := hpre x (List.mem_cons_self _ _)
    have hxs : ∀ y ∈ xs, y.type ≠ .response := fun y hy => hpre y (List.mem_cons_of_mem _ hy)
    simp only [List.cons_append, fetchDrain]
    by_cases ht : x.type = .response ∨ x.type = .partialResponse
    · simp only [if_pos ht, if_neg hx]
      exact ih e post _ hxs he
    · simp only [if_neg ht]
      exact ih e post _ hxs he

/-- Messages free of the quota subcategory never abort message
processing. -/
theorem processMsgs_no_quota :
    ∀ (ms : List ScreenMsg) (isins : List String),
      (∀ m ∈ ms, ∀ sub, m.responseError = some sub →
        strContains sub "DAILY_CAPACITY_REACHED" = false) →
      ∃ is2, processMsgs ms isins = .cont is2 := by
  intro ms
  induction ms with
  | nil => intro isins _; exact ⟨isins, rfl⟩
  | cons m rest ih =>
    intro isins h
    have hstep : ∃ is1, processMsg isins m = .cont is1 := by
      unfold processMsg
      cases hre : m.responseError with
      | some sub =>
        have hq := h m (List.mem_cons_self _ _) sub hre
        refine ⟨isins, ?_⟩
        simp [hq]
      | none =>
        cases m.securityData <;> exact ⟨_, rfl⟩
    obtain ⟨is1, h1⟩ := hstep
    simp only [processMsgs, h1]
    exact ih is1 (fun m2 hm2 => h m2 (List.mem_cons_of_mem _ hm2))

/-- The screening draining loop completes on no finite stream that lacks
both a final-response event and the quota error. -/
theorem drainIndex_no_final_no_quota :
    ∀ (events : List ScreenEvent) (isins : List String),
      (∀ e ∈ events, e.type ≠ .response) →
      (∀ e ∈ events, ∀ m ∈ e.msgs, ∀ sub, m.responseError = some sub →
        strContains sub "DAILY_CAPACITY_REACHED" = false) →
      drainIndex events isins = none := by
  intro events
  induction events with
  | nil => intro isins _ _; rfl
  | cons e es ih =>
    intro isins hf hq
    have he : e.type ≠ .response := hf e (List.mem_cons_self _ _)
    have hfs : ∀ x ∈ es, x.type ≠ .response := fun x hx => hf x (List.mem_cons_of_mem _ hx)
    have hqs : ∀ x ∈ es, ∀ m ∈ x.msgs, ∀ sub, m.responseError = some sub →
        strContains sub "DAILY_CAPACITY_REACHED" = false :=
      fun x hx => hq x (List.mem_cons_of_mem _ hx)
    simp only [drainIndex]
    by_cases ht : e.type = .response ∨ e.type = .partialResponse
    · rw [if_pos ht]
      obtain ⟨is2, h2⟩ := processMsgs_no_quota e.msgs isins (hq e (List.mem_cons_self _ _))
      rw [h2]
      simp only [if_neg he]
      exact ih is2 hfs hqs
    · rw [if_neg ht]
      exact ih isins hfs hqs

/-- A stream whose only event is a partial response carrying the
daily-quota error: it contains no final-response event. -/
def c9Stream : List ScreenEvent :=
  [⟨.partialResponse, [⟨some "DAILY_CAPACITY_REACHED", none⟩]⟩]

/-- Counterexample to C9 as stated: the screening drain loop terminates on
a stream that contains no final-response event — the daily-quota error
makes `screen_usd_bonds` return mid-loop with the sentinel, so "for a
stream containing no final-response event the loop never terminates" is
false for `screen_usd_bonds`. -/
theorem c9_counterexample :
    c9Stream.all (fun e => e.type != EventType.response) = true ∧
    drainIndex c9Stream [] = some .limitReached := by
  constructor <;> decide

/-- Claim C9 (amended): neither draining loop ever exits because a
per-poll timeout expires — non-response, non-partial events are skipped
outright.  The fetch loop exits exactly by consuming the first
final-response event and completes on no stream lacking one.  The
screening loop behaves the same except that it can additionally exit
early, without consuming a final-response event, when a message carries
the daily-quota error subcategory. -/
theorem c9_drain_termination :
    (∀ fields es acc msgs,
      fetchDrain fields (⟨.other, msgs⟩ :: es) acc = fetchDrain fields es acc) ∧
    (∀ events isins msgs,
      drainIndex (⟨.other, msgs⟩ :: events) isins = drainIndex events isins) ∧
    (∀ fields events acc, (∀ e ∈ events, e.type ≠ .response) →
      fetchDrain fields events acc = none) ∧
    (∀ fields pre e post acc, (∀ x ∈ pre, x.type ≠ .response) → e.type = .response →
      fetchDrain fields (pre ++ e :: post) acc = fetchDrain fields (pre ++ [e]) acc ∧
      (fetchDrain fields (pre ++ [e]) acc).isSome) ∧
    (∀ events isins, (∀ e ∈ events, e.type ≠ .response) →
      (∀ e ∈ events, ∀ m ∈ e.msgs, ∀ sub, m.responseError = some sub →
        strContains sub "DAILY_CAPACITY_REACHED" = false) →
      drainIndex events isins = none) := by
  refine ⟨?_, ?_, ?_, ?_, ?_⟩
  · intro fields es acc msgs
    simp [fetchDrain]
  · intro events isins msgs
    simp [drainIndex]
  · intro fields events acc h
    exact fetchDrain_no_final fields events acc h
  · intro fields pre e post acc hpre he
    exact fetchDrain_stops_at_final fields pre e post acc hpre he
  · intro events isins hf hq
    exact drainIndex_no_final_no_quota events isins hf hq

/-- Witness for C9 (amended): concrete streams exercising the skip of a
timeout event, the hang marker without a final event, and the stop at the
first final event. -/
theorem c9_witness :
    fetchDrain [] [⟨.other, []⟩] [] = none ∧
    fetchDrain []
        [⟨.partialResponse, []⟩, ⟨.response, []⟩, ⟨.response, [⟨some [⟨"X", false, []⟩]⟩]⟩]
        [] =
      fetchDrain [] [⟨.partialResponse, []⟩, ⟨.response, []⟩] [] ∧
    drainIndex [⟨.other, []⟩, ⟨.partialResponse, [⟨none, none⟩]⟩] [] = none := by
  refine ⟨?_, ?_, ?_⟩
  · exact c9_drain_termination.2.2.1 [] [⟨.other, []⟩] [] (by decide)
  · exact (c9_drain_termination.2.2.2.1 [] [⟨.partialResponse, []⟩] ⟨.response, []⟩
      [⟨.response, [⟨some [⟨"X", false, []⟩]⟩]⟩] [] (by decide) rfl).1
  · exact c9_drain_termination.2.2.2.2
      [⟨.other, []⟩, ⟨.partialResponse, [⟨none, none⟩]⟩] [] (by decide) (by decide)

example : parse_outlook (.vStr "Positive") = "positive" := by decide

example : parse_outlook (.vStr "stable") = "stable" := by decide

example : parse_watchlist (.vStr "Watch Upgrade") = "Positive" := by decide

example : pyStrip "  x " = "x" := by decide

example : (transform_bloomberg_data [("ISSUER_BULK", .vStr "Acme")]).issuer = .vStr "Acme" := by decide

end CreditAlert
